import Mathlib

/-!
Verification of the stack-ordering, identity-pairing, resource-negotiation and
naming layers of the MIAL super-resolution toolkit (pymialsrtk).

The definitions below are shallow embeddings of

* `pymialsrtk/interfaces/preprocess.py`: run-index extraction from filenames
  (`in_file.split('run-')[1].split('_')[0]` fed to `int`), and the `Multiple*`
  mapped interfaces with their `stacks_order` loop;
* `docker/bidsapp/run.py`: `return_default_nb_of_cores`,
  `check_and_return_valid_nb_of_cores`, and `main`;
* `pymialsrtk/pipelines/anatomical/srr.py`: `AnatomicalPipeline.__init__`,
  `AnatomicalPipeline.run`, and the datasink filename substitutions assembled
  in `AnatomicalPipeline.create_workflow`.

Python strings are embedded as `List Char`; Python `str.split(sep)` (with a
non-empty separator) is embedded by `pySplit`, `list.index` by `pyIndex`, and
`str(n)` for a natural number by `natToChars`.  Fallible Python operations
(IndexError, ValueError, TypeError, AttributeError, ZeroDivisionError) are
embedded with `Option`/`Except`.
-/

namespace Mial

/-! ### Python `str.split` on character lists

`splitLoop sep fuel acc l` scans `l` left to right; whenever `sep` occurs
(non-overlapping, leftmost first) the piece accumulated in `acc` (reversed) is
emitted, exactly as Python's `str.split` with a non-empty separator.  The
`fuel` argument makes the recursion structural; `pySplit` instantiates it with
`l.length`, which is always sufficient. -/

def splitLoop (sep : List Char) : Nat → List Char → List Char → List (List Char)
  | 0, acc, l => [acc.reverse ++ l]
  | fuel+1, acc, l =>
    if sep.isPrefixOf l then
      acc.reverse :: splitLoop sep fuel [] (l.drop sep.length)
    else
      match l with
      | [] => [acc.reverse]
      | c :: tl => splitLoop sep fuel (c :: acc) tl

/-- Python `l.split(sep)` for a non-empty separator `sep`. -/
def pySplit (sep l : List Char) : List (List Char) := splitLoop sep l.length [] l

theorem isPrefixOf_append_self (sep r : List Char) : sep.isPrefixOf (sep ++ r) = true := by
  induction sep with
  | nil => simp [List.isPrefixOf]
  | cons c tl ih => simp [List.isPrefixOf, ih]

theorem isPrefixOf_cons_ne {s0 c : Char} (sep' l : List Char) (h : s0 ≠ c) :
    (s0 :: sep').isPrefixOf (c :: l) = false := by
  simp [List.isPrefixOf, h]

/-- The accumulator only affects the first emitted piece. -/
theorem splitLoop_acc (sep : List Char) :
    ∀ (fuel : Nat) (l acc : List Char),
    ∃ P R, splitLoop sep fuel [] l = P :: R ∧
      splitLoop sep fuel acc l = (acc.reverse ++ P) :: R := by
  intro fuel
  induction fuel with
  | zero =>
    intro l acc
    exact ⟨l, [], by simp [splitLoop], by simp [splitLoop]⟩
  | succ fuel ih =>
    intro l acc
    by_cases h : sep.isPrefixOf l
    · exact ⟨[], splitLoop sep fuel [] (l.drop sep.length),
        by simp [splitLoop, h], by simp [splitLoop, h]⟩
    · match l with
      | [] => exact ⟨[], [], by simp [splitLoop, h], by simp [splitLoop, h]⟩
      | c :: tl =>
        obtain ⟨P, R, h1, h2⟩ := ih tl (c :: acc)
        obtain ⟨P', R', h3, h4⟩ := ih tl [c]
        rw [h1] at h3
        injection h3 with hP hR
        subst hP
        subst hR
        refine ⟨c :: P, R, ?_, ?_⟩
        · show splitLoop sep (fuel+1) [] (c :: tl) = (c :: P) :: R
          simp only [splitLoop, h, if_false]
          simpa using h4
        · show splitLoop sep (fuel+1) acc (c :: tl) = (acc.reverse ++ (c :: P)) :: R
          simp only [splitLoop, h, if_false]
          rw [h2]
          simp

/-- `splitLoop` never returns the empty list. -/
theorem splitLoop_ne_nil (sep : List Char) (fuel : Nat) (acc l : List Char) :
    splitLoop sep fuel acc l ≠ [] := by
  obtain ⟨P, R, _, h2⟩ := splitLoop_acc sep fuel l acc
  simp [h2]

/-- Any fuel at least `l.length` computes the same result as fuel `l.length`. -/
theorem splitLoop_fuel (sep : List Char) (hsep : sep ≠ []) :
    ∀ (fuel : Nat) (l acc : List Char), l.length ≤ fuel →
      splitLoop sep fuel acc l = splitLoop sep l.length acc l := by
  intro fuel
  induction fuel using Nat.strong_induction_on with
  | _ fuel ih =>
    intro l acc hlen
    match fuel with
    | 0 =>
      interval_cases h : l.length
      · have : l = [] := List.length_eq_zero.mp h
        subst this; rfl
    | fuel+1 =>
      by_cases h : sep.isPrefixOf l
      · have hlne : l ≠ [] := by
          intro hnil; subst hnil
          cases sep with
          | nil => exact hsep rfl
          | cons a s => simp [List.isPrefixOf] at h
        obtain ⟨c, tl, rfl⟩ := List.exists_cons_of_ne_nil hlne
        have hslen : 1 ≤ sep.length := by
          cases sep with
          | nil => exact absurd rfl hsep
          | cons a s => simp
        have hdrop : ((c :: tl).drop sep.length).length = (c :: tl).length - sep.length := by
          simp
        have hd1 : ((c :: tl).drop sep.length).length ≤ fuel := by
          rw [hdrop]; simp at hlen ⊢; omega
        have hd2 : ((c :: tl).drop sep.length).length ≤ tl.length := by
          rw [hdrop]; simp; omega
        show splitLoop sep (fuel+1) acc (c :: tl) = splitLoop sep (tl.length + 1) acc (c :: tl)
        simp only [splitLoop, h, if_true]
        rw [ih fuel (by omega) _ [] hd1,
            ih tl.length (by simp at hlen; omega) _ [] hd2]
      · match l with
        | [] => simp [splitLoop, h]
        | c :: tl =>
          show splitLoop sep (fuel+1) acc (c :: tl) = splitLoop sep (tl.length + 1) acc (c :: tl)
          simp only [splitLoop, h, if_false]
          rw [ih fuel (by omega) tl (c :: acc) (by simp at hlen; omega)]
          exact (ih tl.length (by simp at hlen; omega) tl (c :: acc) le_rfl).symm

/-- Splitting a string that starts with the separator emits an empty piece. -/
theorem pySplit_emit (sep rest : List Char) (hsep : sep ≠ []) :
    pySplit sep (sep ++ rest) = [] :: pySplit sep rest := by
  have hslen : 1 ≤ sep.length := by
    cases sep with
    | nil => exact absurd rfl hsep
    | cons a s => simp
  obtain ⟨m, hm⟩ : ∃ m, (sep ++ rest).length = m + 1 :=
    ⟨(sep ++ rest).length - 1, by simp; omega⟩
  show splitLoop sep (sep ++ rest).length [] (sep ++ rest) = [] :: pySplit sep rest
  rw [hm]
  simp only [splitLoop, isPrefixOf_append_self, if_true, List.reverse_nil]
  rw [List.drop_left]
  have hmr : rest.length ≤ m := by simp at hm; omega
  rw [splitLoop_fuel sep hsep m rest [] hmr]
  rfl

/-- Splitting `c :: l` when the separator does not occur at the front conses
`c` onto the first piece of the split of `l`. -/
theorem pySplit_cons (sep l : List Char) (c : Char) (h : sep.isPrefixOf (c :: l) = false) :
    ∃ P R, pySplit sep l = P :: R ∧ pySplit sep (c :: l) = (c :: P) :: R := by
  obtain ⟨P, R, h1, h2⟩ := splitLoop_acc sep l.length l [c]
  refine ⟨P, R, h1, ?_⟩
  show splitLoop sep (l.length + 1) [] (c :: l) = (c :: P) :: R
  simp only [splitLoop, h, if_false]
  simpa using h2

/-- If the separator occurs first at position `pre.length`, the split of
`pre ++ sep ++ rest` is `pre` followed by the split of `rest`. -/
theorem pySplit_first_marker (sep : List Char) (hsep : sep ≠ []) :
    ∀ (pre rest : List Char),
    (∀ k, k < pre.length → ¬ (sep.isPrefixOf (pre.drop k ++ sep ++ rest) = true)) →
    pySplit sep (pre ++ sep ++ rest) = pre :: pySplit sep rest := by
  intro pre
  induction pre with
  | nil =>
    intro rest _
    simpa using pySplit_emit sep rest hsep
  | cons c pre' ih =>
    intro rest hfirst
    have hx : sep.isPrefixOf (c :: (pre' ++ sep ++ rest)) = false := by
      have h0 := hfirst 0 (by simp)
      simp only [List.drop_zero, List.cons_append] at h0
      exact Bool.not_eq_true _ ▸ eq_false_of_ne_true h0
    obtain ⟨P, R, h1, h2⟩ := pySplit_cons sep (pre' ++ sep ++ rest) c hx
    have hrec := ih rest (fun k hk => by
      have := hfirst (k+1) (by simpa using Nat.succ_lt_succ hk)
      simpa using this)
    rw [hrec] at h1
    injection h1 with hP hR
    subst hP
    subst hR
    show pySplit sep ((c :: pre') ++ sep ++ rest) = (c :: pre') :: pySplit sep rest
    have hre : (c :: pre') ++ sep ++ rest = c :: (pre' ++ sep ++ rest) := by simp
    rw [hre, h2]

/-- Scanning through characters that cannot start the separator extends the
first piece of the split. -/
theorem pySplit_safe_front (s0 : Char) (sep' : List Char) :
    ∀ (front tail : List Char), (∀ c ∈ front, c ≠ s0) →
    ∃ T R, pySplit (s0 :: sep') tail = T :: R ∧
      pySplit (s0 :: sep') (front ++ tail) = (front ++ T) :: R := by
  intro front
  induction front with
  | nil =>
    intro tail _
    obtain ⟨P, R, h1, -⟩ := splitLoop_acc (s0 :: sep') tail.length tail []
    exact ⟨P, R, h1, by simpa using h1⟩
  | cons c front' ih =>
    intro tail hsafe
    obtain ⟨T, R, h1, h2⟩ := ih tail (fun x hx => hsafe x (by simp [hx]))
    have hne : (s0 :: sep').isPrefixOf (c :: (front' ++ tail)) = false :=
      isPrefixOf_cons_ne sep' _ (Ne.symm (hsafe c (by simp)))
    obtain ⟨P, R', h3, h4⟩ := pySplit_cons (s0 :: sep') (front' ++ tail) c hne
    rw [h2] at h3
    injection h3 with hP hR
    subst hP
    subst hR
    exact ⟨T, R, h1, by simpa using h4⟩

/-! ### Decimal digits and Python `int`/`str` -/

/-- Decimal value of a digit string (what Python `int` returns on it). -/
def decValue (l : List Char) : Nat := l.foldl (fun n c => 10 * n + (c.toNat - 48)) 0

/-- Python `int(s)` restricted to the inputs arising here: it succeeds on a
non-empty all-digit string, returning its decimal value, and raises
`ValueError` (`none`) otherwise.  (Python additionally strips whitespace and
accepts signs and non-ASCII digits; no substring handled in this development
contains those.) -/
def pyInt (l : List Char) : Option Nat :=
  if l ≠ [] ∧ l.all Char.isDigit then some (decValue l) else none

/-- Decimal digits of `n`, most significant first: Python `str(n)` for a
natural number.  The first argument is recursion fuel; `natToChars`
instantiates it sufficiently. -/
def natToCharsFuel : Nat → Nat → List Char
  | 0, n => [Char.ofNat (48 + n % 10)]
  | fuel+1, n =>
    if n < 10 then [Char.ofNat (48 + n % 10)]
    else natToCharsFuel fuel (n / 10) ++ [Char.ofNat (48 + n % 10)]

/-- Python `str(n)` for a natural number. -/
def natToChars (n : Nat) : List Char := natToCharsFuel n n

theorem digitChar_toNat {d : Nat} (h : d < 10) : (Char.ofNat (48 + d)).toNat = 48 + d := by
  interval_cases d <;> decide

theorem digitChar_isDigit {d : Nat} (h : d < 10) : (Char.ofNat (48 + d)).isDigit = true := by
  interval_cases d <;> decide

theorem decValue_append_digit (u : List Char) (c : Char) :
    decValue (u ++ [c]) = 10 * decValue u + (c.toNat - 48) := by
  simp [decValue, List.foldl_append]

theorem decValue_natToCharsFuel : ∀ fuel n, n ≤ fuel → decValue (natToCharsFuel fuel n) = n := by
  intro fuel
  induction fuel with
  | zero =>
    intro n hn
    interval_cases n
    decide
  | succ fuel ih =>
    intro n hn
    have h10 : n % 10 < 10 := Nat.mod_lt _ (by omega)
    by_cases h : n < 10
    · rw [natToCharsFuel]
      simp only [h, if_true]
      simp [decValue, digitChar_toNat h10]
      omega
    · have hdiv : n / 10 < n := Nat.div_lt_self (by omega) (by omega)
      rw [natToCharsFuel]
      simp only [h, if_false]
      rw [decValue_append_digit, ih (n / 10) (by omega), digitChar_toNat h10]
      omega

theorem decValue_natToChars (n : Nat) : decValue (natToChars n) = n :=
  decValue_natToCharsFuel n n le_rfl

theorem natToChars_inj {a b : Nat} (h : natToChars a = natToChars b) : a = b := by
  have ha := decValue_natToChars a
  have hb := decValue_natToChars b
  rw [h] at ha
  omega

theorem natToCharsFuel_all_digits : ∀ fuel n, (natToCharsFuel fuel n).all Char.isDigit = true := by
  intro fuel
  induction fuel with
  | zero =>
    intro n
    simp [natToCharsFuel, digitChar_isDigit (Nat.mod_lt n (by omega))]
  | succ fuel ih =>
    intro n
    have h10 : n % 10 < 10 := Nat.mod_lt _ (by omega)
    by_cases h : n < 10
    · simp [natToCharsFuel, h, digitChar_isDigit h10]
    · simp [natToCharsFuel, h, List.all_append, ih, digitChar_isDigit h10]

theorem natToChars_all_digits (n : Nat) : (natToChars n).all Char.isDigit = true :=
  natToCharsFuel_all_digits n n

/-- Two strings that start with an all-digit block followed by a non-digit
character agree on the digit block (and the remainder) as soon as they are
equal.  This is the reason `run-<digits>_` blocks act as a prefix code. -/
theorem digits_append_inj :
    ∀ (u v : List Char) {a b : Char} (x y : List Char),
    u.all Char.isDigit = true → v.all Char.isDigit = true →
    a.isDigit = false → b.isDigit = false →
    u ++ a :: x = v ++ b :: y → u = v ∧ a = b ∧ x = y := by
  intro u
  induction u with
  | nil =>
    intro v a b x y _ hv ha hb h
    cases v with
    | nil => simpa using h
    | cons d v' =>
      simp only [List.nil_append, List.cons_append] at h
      injection h with h1 h2
      subst h1
      simp only [List.all_cons, Bool.and_eq_true] at hv
      rw [hv.1] at ha
      cases ha
  | cons c u' ih =>
    intro v a b x y hu hv ha hb h
    cases v with
    | nil =>
      simp only [List.cons_append, List.nil_append] at h
      injection h with h1 h2
      subst h1
      simp only [List.all_cons, Bool.and_eq_true] at hu
      rw [hu.1] at hb
      cases hb
    | cons d v' =>
      simp only [List.cons_append] at h
      injection h with h1 h2
      subst h1
      simp only [List.all_cons, Bool.and_eq_true] at hu hv
      obtain ⟨h3, h4, h5⟩ := ih v' x y hu.2 hv.2 ha hb h2
      exact ⟨by rw [h3], h4, h5⟩

/-! ### Python `list.index` -/

/-- Python `l.index(v)`: first index of `v` in `l`, `ValueError` as `none`. -/
def pyIndex (l : List Nat) (v : Nat) : Option Nat :=
  match l with
  | [] => none
  | x :: tl => if x = v then some 0 else (pyIndex tl v).map (· + 1)

theorem pyIndex_isSome_of_mem : ∀ {l : List Nat} {v : Nat}, v ∈ l → ∃ i, pyIndex l v = some i := by
  intro l
  induction l with
  | nil => intro v h; cases h
  | cons x tl ih =>
    intro v h
    by_cases hx : x = v
    · exact ⟨0, by simp [pyIndex, hx]⟩
    · obtain ⟨i, hi⟩ := ih (by
        cases h with
        | head => exact absurd rfl hx
        | tail _ h => exact h)
      exact ⟨i + 1, by simp [pyIndex, hx, hi]⟩

theorem pyIndex_lt : ∀ {l : List Nat} {v i : Nat}, pyIndex l v = some i → i < l.length := by
  intro l
  induction l with
  | nil => intro v i h; simp [pyIndex] at h
  | cons x tl ih =>
    intro v i h
    by_cases hx : x = v
    · simp [pyIndex, hx] at h
      simp
      omega
    · simp only [pyIndex, hx, if_false, Option.map_eq_some'] at h
      obtain ⟨j, hj, rfl⟩ := h
      have := ih hj
      simp
      omega

theorem pyIndex_getElem : ∀ {l : List Nat} {v i : Nat}, pyIndex l v = some i → l[i]? = some v := by
  intro l
  induction l with
  | nil => intro v i h; simp [pyIndex] at h
  | cons x tl ih =>
    intro v i h
    by_cases hx : x = v
    · simp [pyIndex, hx] at h
      subst h
      simp [hx]
    · simp only [pyIndex, hx, if_false, Option.map_eq_some'] at h
      obtain ⟨j, hj, rfl⟩ := h
      simpa using ih hj

/-- On a duplicate-free list, `list.index` recovers exactly the position a
value sits at. -/
theorem pyIndex_of_nodup : ∀ {l : List Nat} {v i : Nat},
    l.Nodup → l[i]? = some v → pyIndex l v = some i := by
  intro l
  induction l with
  | nil => intro v i _ h; simp at h
  | cons x tl ih =>
    intro v i hnd h
    match i with
    | 0 =>
      simp at h
      simp [pyIndex, h]
    | i+1 =>
      simp only [List.getElem?_cons_succ] at h
      have hvtl : v ∈ tl := List.getElem?_mem h
      have hx : x ≠ v := by
        intro he
        subst he
        exact (List.nodup_cons.mp hnd).1 hvtl
      simp [pyIndex, hx, ih (List.nodup_cons.mp hnd).2 h]

/-! ### Run-index extraction (preprocess.py)

The `Multiple*` interfaces all extract the per-stack run index of a filename
by `cut_avt = in_file.split('run-')[1]`, `cut_apr = cut_avt.split('_')[0]`,
`int(cut_apr)` (preprocess.py lines 242-246 and the textually identical loops
at 683-693 and 893-909).  A missing `run-` marker raises IndexError, a
non-numeric substring raises ValueError; both are embedded as `none`. -/

/-- The literal marker `'run-'`. -/
def runMarker : List Char := ['r', 'u', 'n', '-']

/-- `int(path.split('run-')[1].split('_')[0])` with IndexError/ValueError as
`none`. -/
def extract_run_nb (path : List Char) : Option Nat :=
  match pySplit runMarker path with
  | _ :: cut_avt :: _ => pyInt ((pySplit ['_'] cut_avt).headD [])
  | _ => none

/-- The extraction loop over a file list: abort at the first failing file,
otherwise collect the run numbers in list order. -/
def computeRunNbs : List (List Char) → Option (List Nat)
  | [] => some []
  | f :: fs => do
    let r ← extract_run_nb f
    let rs ← computeRunNbs fs
    pure (r :: rs)

/-- The `run_nb_images` loop (preprocess.py 242-246, 683-687, 893-897). -/
def run_nb_images (input_images : List (List Char)) : Option (List Nat) :=
  computeRunNbs input_images

/-- The `run_nb_masks` loop (preprocess.py 249-253, 689-693, 899-903); its
body is textually identical to the `run_nb_images` loop. -/
def run_nb_masks (input_masks : List (List Char)) : Option (List Nat) :=
  computeRunNbs input_masks

/-- The `run_nb_fields` loop (preprocess.py 905-909); its body is textually
identical to the `run_nb_images` loop. -/
def run_nb_fields (input_fields : List (List Char)) : Option (List Nat) :=
  computeRunNbs input_fields

theorem computeRunNbs_length :
    ∀ {fs : List (List Char)} {rs : List Nat}, computeRunNbs fs = some rs →
      rs.length = fs.length := by
  intro fs
  induction fs with
  | nil => intro rs h; simp [computeRunNbs] at h; simp [← h]
  | cons f fs ih =>
    intro rs h
    simp only [computeRunNbs, Option.bind_eq_bind, Option.bind_eq_some'] at h
    obtain ⟨r, -, rs', hrs', hpure⟩ := h
    simp only [pure, Option.some.injEq] at hpure
    subst hpure
    simp [ih hrs']

/-! ### The `stacks_order` loop of the `Multiple*` interfaces -/

/-- `if not self.inputs.stacks_order: self.inputs.stacks_order =
list(range(0, len(self.inputs.input_images)))` (preprocess.py 239-240,
680-681, 890-891). -/
def effective_stacks_order (stacks_order : List Nat) (n_images : Nat) : List Nat :=
  if stacks_order = [] then List.range n_images else stacks_order

/-- The `for order in self.inputs.stacks_order` loop: run `step` on each
requested run index in order; an uncaught exception (`none`) aborts the
stage. -/
def processStacks {α : Type} (step : Nat → Option α) : List Nat → Option (List α)
  | [] => some []
  | o :: rest => do
    let c ← step o
    let cs ← processStacks step rest
    pure (c :: cs)

theorem processStacks_spec {α : Type} (step : Nat → Option α) :
    ∀ (so : List Nat), (∀ o ∈ so, (step o).isSome) →
    ∃ cs, processStacks step so = some cs ∧ cs.length = so.length ∧
      ∀ (j o : Nat), so[j]? = some o → cs[j]? = step o := by
  intro so
  induction so with
  | nil =>
    intro _
    exact ⟨[], rfl, rfl, by intro j o h; simp at h⟩
  | cons o rest ih =>
    intro hall
    obtain ⟨c, hc⟩ := Option.isSome_iff_exists.mp (hall o (by simp))
    obtain ⟨cs, hcs, hlen, hget⟩ := ih (fun x hx => hall x (by simp [hx]))
    refine ⟨c :: cs, ?_, by simp [hlen], ?_⟩
    · simp [processStacks, hc, hcs]
    · intro j o' hj
      match j with
      | 0 =>
        simp at hj
        subst hj
        simp [hc]
      | j+1 =>
        simp only [List.getElem?_cons_succ] at hj ⊢
        exact hget j o' hj

/-! ### MultipleBtkNLMDenoising (preprocess.py 206-277)

A per-stack invocation of `BtkNLMDenoising` is recorded by the image (and
optional mask) passed to it; the static inputs `bids_dir`, `out_postfix` and
`weight` are forwarded unchanged by the loop and are not part of the pairing
behaviour under study. -/

structure DenoiseCall where
  in_file : List Char
  in_mask : Option (List Char)
deriving DecidableEq

structure MultipleDenoiseInputs where
  input_images : List (List Char)
  input_masks : List (List Char)
  stacks_order : List Nat
deriving DecidableEq

/-- Loop body (preprocess.py 256-263, `len(input_masks) > 0` branch):
`index_img = run_nb_images.index(order)`, `index_mask =
run_nb_masks.index(order)`, then `BtkNLMDenoising(..., in_file=
input_images[index_img], in_mask=input_masks[index_mask], ...)`. -/
def denoiseStepMasked (input_images input_masks : List (List Char))
    (rimgs rmasks : List Nat) (order : Nat) : Option DenoiseCall := do
  let index_img ← pyIndex rimgs order
  let index_mask ← pyIndex rmasks order
  let f ← input_images[index_img]?
  let m ← input_masks[index_mask]?
  pure { in_file := f, in_mask := some m }

/-- Loop body (preprocess.py 256, 264-268, mask-free branch). -/
def denoiseStepNoMask (input_images : List (List Char))
    (rimgs : List Nat) (order : Nat) : Option DenoiseCall := do
  let index_img ← pyIndex rimgs order
  let f ← input_images[index_img]?
  pure { in_file := f, in_mask := none }

/-- `MultipleBtkNLMDenoising._run_interface` (preprocess.py 236-272): the
sequence of per-stack `BtkNLMDenoising` invocations it performs, or `none`
if the loop raises (IndexError/ValueError).  The source computes
`run_nb_masks` only when `input_masks` is truthy and checks
`len(input_masks) > 0` again inside the loop; both conditions coincide with
`input_masks ≠ []` and are loop-invariant, so they are hoisted here. -/
def multipleBtkNLMDenoising_run (inp : MultipleDenoiseInputs) : Option (List DenoiseCall) :=
  let so := effective_stacks_order inp.stacks_order inp.input_images.length
  do
  let rimgs ← run_nb_images inp.input_images
  if inp.input_masks.length > 0 then do
    let rmasks ← run_nb_masks inp.input_masks
    processStacks (denoiseStepMasked inp.input_images inp.input_masks rimgs rmasks) so
  else
    processStacks (denoiseStepNoMask inp.input_images rimgs) so

/-! ### MultipleMialsrtkSliceBySliceCorrectBiasField (preprocess.py 861-926) -/

structure BiasFieldCall where
  in_file : List Char
  in_mask : List Char
  in_field : List Char
deriving DecidableEq

structure MultipleCorrectBiasFieldInputs where
  input_images : List (List Char)
  input_masks : List (List Char)
  input_fields : List (List Char)
  stacks_order : List Nat
deriving DecidableEq

/-- Loop body (preprocess.py 911-920): `index_img/index_mask/index_fld =
run_nb_*.index(order)`, then `MialsrtkSliceBySliceCorrectBiasField(...,
in_file=input_images[index_img], in_mask=input_masks[index_mask],
in_field=input_fields[index_fld], ...)`. -/
def biasFieldStep (input_images input_masks input_fields : List (List Char))
    (rimgs rmasks rflds : List Nat) (order : Nat) : Option BiasFieldCall := do
  let index_img ← pyIndex rimgs order
  let index_mask ← pyIndex rmasks order
  let index_fld ← pyIndex rflds order
  let f ← input_images[index_img]?
  let m ← input_masks[index_mask]?
  let b ← input_fields[index_fld]?
  pure { in_file := f, in_mask := m, in_field := b }

/-- `MultipleMialsrtkSliceBySliceCorrectBiasField._run_interface`
(preprocess.py 887-921): the sequence of per-stack
`MialsrtkSliceBySliceCorrectBiasField` invocations it performs. -/
def multipleCorrectBiasField_run (inp : MultipleCorrectBiasFieldInputs) :
    Option (List BiasFieldCall) :=
  let so := effective_stacks_order inp.stacks_order inp.input_images.length
  do
  let rimgs ← run_nb_images inp.input_images
  let rmasks ← run_nb_masks inp.input_masks
  let rflds ← run_nb_fields inp.input_fields
  processStacks
    (biasFieldStep inp.input_images inp.input_masks inp.input_fields rimgs rmasks rflds) so

/-! ### Stage-level outcome under external-transform failure

`BtkNLMDenoising._run_interface` wraps the external `run(cmd)` in
`try/except` and, on failure, prints `'Failed'` and falls through to
`return runtime` (preprocess.py 137-143): the interface completes normally
whether or not the external command succeeded.
`MultipleBtkNLMDenoising._list_outputs` then reports
`glob(os.path.abspath("*.nii.gz"))` (preprocess.py 274-277): whatever output
files exist, i.e. the out-files of the invocations whose external command
did create its output.  `cmd_succeeds` is the boundary model of the external
kernel: it decides per input file whether the command wrote its output. -/

/-- The output filename of a denoising invocation.  (In the source the
postfix is spliced before the `.nii.gz` extension and the directory is
rewritten; only distinctness per input file matters here.) -/
def denoise_out_file (in_file : List Char) : List Char := in_file ++ ['_', 'n', 'l', 'm']

/-- In the first component, `true` states that `_run_interface` returned
`runtime` normally; the second component is the output list reported by
`_list_outputs`. -/
def multipleBtkNLMDenoising_stage (cmd_succeeds : List Char → Bool)
    (inp : MultipleDenoiseInputs) : Option (Bool × List (List Char)) :=
  (multipleBtkNLMDenoising_run inp).map (fun calls =>
    (true, (calls.filter (fun c => cmd_succeeds c.in_file)).map
      (fun c => denoise_out_file c.in_file)))

/-! ### Core-count negotiation (docker/bidsapp/run.py 19-136)

`multiprocessing.cpu_count()` is passed in as `nb_of_cores`.  The Boolean in
the result records whether a WARNING was printed.  `ZeroDivisionError`
(possible in `return_default_nb_of_cores` when `nb_of_cores <
openmp_proportion`) is embedded as `none`.  The requested counts come from
`argparse` with default `0`; the negotiated claims only concern non-negative
requests, embedded as `Nat`. -/

/-- `return_default_nb_of_cores` (run.py 19-50). -/
def return_default_nb_of_cores (nb_of_cores openmp_proportion : Nat) : Option (Nat × Nat) :=
  if openmp_proportion = 0 then none
  else
    let openmp_nb_of_cores := nb_of_cores / openmp_proportion
    if openmp_nb_of_cores = 0 then none
    else some (openmp_nb_of_cores, nb_of_cores / openmp_nb_of_cores)

/-- `check_and_return_valid_nb_of_cores` (run.py 53-136), with the available
core count `nb_of_cores` (read from `multiprocessing.cpu_count()` in the
source) made explicit. -/
def check_and_return_valid_nb_of_cores
    (openmp_nb_of_cores nipype_nb_of_cores openmp_proportion nb_of_cores : Nat) :
    Option ((Nat × Nat) × Bool) :=
  if openmp_nb_of_cores = 0 ∧ nipype_nb_of_cores = 0 then
    (return_default_nb_of_cores nb_of_cores openmp_proportion).map (fun p => (p, false))
  else if 0 < openmp_nb_of_cores ∧ nipype_nb_of_cores = 0 then
    if openmp_nb_of_cores ≥ nb_of_cores then
      some ((nb_of_cores, 1), decide (openmp_nb_of_cores > nb_of_cores))
    else
      some ((openmp_nb_of_cores, nb_of_cores / openmp_nb_of_cores), false)
  else if openmp_nb_of_cores = 0 ∧ 0 < nipype_nb_of_cores then
    if nipype_nb_of_cores ≥ nb_of_cores then
      some ((1, nb_of_cores), decide (nipype_nb_of_cores > nb_of_cores))
    else
      some ((nb_of_cores / nipype_nb_of_cores, nipype_nb_of_cores), false)
  else
    if nipype_nb_of_cores ≥ nb_of_cores then
      if openmp_nb_of_cores ≥ nb_of_cores then
        (return_default_nb_of_cores nb_of_cores openmp_proportion).map (fun p => (p, true))
      else if openmp_nb_of_cores * nipype_nb_of_cores > nb_of_cores then
        (return_default_nb_of_cores nb_of_cores openmp_proportion).map (fun p => (p, true))
      else
        some ((openmp_nb_of_cores, nipype_nb_of_cores), false)
    else
      if openmp_nb_of_cores ≥ nb_of_cores then
        (return_default_nb_of_cores nb_of_cores openmp_proportion).map (fun p => (p, true))
      else if openmp_nb_of_cores * nipype_nb_of_cores > nb_of_cores then
        (return_default_nb_of_cores nb_of_cores openmp_proportion).map (fun p => (p, true))
      else
        some ((openmp_nb_of_cores, nipype_nb_of_cores), false)

/-! ### Python call semantics for `main` → `AnatomicalPipeline` -/

inductive PyError
  | typeError
  | attributeError
deriving DecidableEq

/-- The parameters (besides `self`) of `AnatomicalPipeline.__init__`
(srr.py 105-107). -/
def anatomicalPipeline_init_params : List String :=
  ["bids_dir", "output_dir", "subject", "p_stacks_order", "srID", "session",
   "paramTV", "use_manual_masks"]

/-- The positional arguments `main` passes to `AnatomicalPipeline`
(run.py 188-197), in source order. -/
def main_pipeline_call_args : List String :=
  ["bids_dir", "output_dir", "subject", "p_stacksOrder", "srID", "session",
   "paramTV", "masks_derivatives_dir", "skip_svr", "do_refine_hr_mask"]

/-- Python positional-call check: passing more positional arguments than the
callee has parameters raises `TypeError`. -/
def pyCallPositional (param_count arg_count : Nat) : Except PyError Unit :=
  if param_count < arg_count then .error .typeError else .ok ()

/-- The arguments of `main` (run.py 139-140). -/
structure MainArgs where
  bids_dir : List Char
  output_dir : List Char
  subject : List Char
  p_stacksOrder : List Nat
  session : Option (List Char)
  paramTV : Option Unit
  number_of_cores : Int
  srID : Option (List Char)
  masks_derivatives_dir : List Char
  skip_svr : Bool
  do_refine_hr_mask : Bool
deriving DecidableEq

/-- `main` (run.py 139-204) up to control effects: it normalises
`subject`/`session`/`srID` and then constructs `AnatomicalPipeline` with the
ten positional arguments of `main_pipeline_call_args` against the eight
parameters of `anatomicalPipeline_init_params`.  The returned Boolean states
that `create_workflow` and `run` were reached. -/
def main (a : MainArgs) : Except PyError Bool :=
  let _subject := ['s', 'u', 'b', '-'] ++ a.subject
  let _session := a.session.map (fun s => ['s', 'e', 's', '-'] ++ s)
  let _srID := a.srID.getD ['0', '1']
  do
  pyCallPositional anatomicalPipeline_init_params.length main_pipeline_call_args.length
  pure true

/-! ### `AnatomicalPipeline.run` (srr.py 470-493) -/

/-- The attribute names available on an `AnatomicalPipeline` instance: the
class-level attributes (srr.py 92-103); `__init__` (105-127) and
`create_workflow` (129-468) assign only names from this same set.
`number_of_cores` is not among them. -/
def anatomicalPipeline_attributes : List String :=
  ["bids_dir", "output_dir", "subject", "wf", "dictsink", "deltatTV",
   "lambdaTV", "primal_dual_loops", "srID", "session", "p_stacks_order",
   "use_manual_masks"]

/-- Python attribute lookup: `AttributeError` when the name is neither an
instance nor a class attribute. -/
def pyGetAttr (attrs : List String) (name : String) : Except PyError Unit :=
  if name ∈ attrs then .ok () else .error .attributeError

/-- `AnatomicalPipeline.run` (srr.py 470-493).  For `number_of_cores != 1`
the source evaluates `self.number_of_cores` while building the
`plugin_args` dictionary, i.e. before `self.wf.run` is invoked.  The
returned Boolean states that the workflow was executed. -/
def anatomicalPipeline_run (number_of_cores : Int) : Except PyError Bool :=
  if number_of_cores ≠ 1 then do
    pyGetAttr anatomicalPipeline_attributes "number_of_cores"
    pure true
  else
    pure true

/-! ### Datasink filename substitutions (srr.py 404-457)

`AnatomicalPipeline.create_workflow` assembles, for each `stack` in
`self.p_stacks_order`, up to five `(internal, external)` filename pairs, and
then three run-independent pairs.  `sub_ses` is the subject (or
`subject_session`) prefix, `srID` the reconstruction id string, and the
transform entry embeds `str(len(self.p_stacks_order))`. -/

/-- The per-stack substitution pairs appended for one `stack` in the
`for stack in self.p_stacks_order` loop (srr.py 407-437).  The brain-mask
pair is only appended when `use_manual_masks` is false (srr.py 414-419). -/
def subBlock (sub_ses srID : List Char) (n_stacks : Nat) (use_manual_masks : Bool)
    (stack : Nat) : List (List Char × List Char) :=
  let pre := sub_ses ++ "_run-".toList ++ natToChars stack
  [(pre ++ "_T2w_nlm_uni_bcorr_histnorm.nii.gz".toList,
    pre ++ "_id-".toList ++ srID ++ "_desc-preprocSDI_T2w.nii.gz".toList)]
  ++ (if use_manual_masks then []
      else [(pre ++ "_T2w_brainMask.nii.gz".toList,
             pre ++ "_desc-brain_mask.nii.gz".toList)])
  ++ [(pre ++ "_T2w_uni_bcorr_histnorm.nii.gz".toList,
       pre ++ "_id-".toList ++ srID ++ "_desc-preprocSR_T2w.nii.gz".toList),
      (pre ++ "_T2w_nlm_uni_bcorr_histnorm_transform_".toList ++ natToChars n_stacks
           ++ "V.txt".toList,
       pre ++ "_id-".toList ++ srID ++ "_T2w_from-origin_to-SDI_mode-image_xfm.txt".toList),
      (pre ++ "_T2w_uni_bcorr_histnorm_LRmask.nii.gz".toList,
       pre ++ "_id-".toList ++ srID ++ "_T2w_desc-brain_mask.nii.gz".toList)]

/-- The three run-independent substitution pairs (srr.py 439-455). -/
def globalSubs (sub_ses srID : List Char) (n_stacks : Nat) :
    List (List Char × List Char) :=
  [("SDI_".toList ++ sub_ses ++ "_".toList ++ natToChars n_stacks ++ "V_rad1.nii.gz".toList,
    sub_ses ++ "_rec-SDI".toList ++ "_id-".toList ++ srID ++ "_T2w.nii.gz".toList),
   ("SRTV_".toList ++ sub_ses ++ "_".toList ++ natToChars n_stacks
        ++ "V_rad1_gbcorr.nii.gz".toList,
    sub_ses ++ "_rec-SR".toList ++ "_id-".toList ++ srID ++ "_T2w.nii.gz".toList),
   (sub_ses ++ "_T2w_uni_bcorr_histnorm_srMask.nii.gz".toList,
    sub_ses ++ "_rec-SR".toList ++ "_id-".toList ++ srID
        ++ "_T2w_desc-brain_mask.nii.gz".toList)]

/-- The full substitution list assembled in `create_workflow`
(srr.py 405-455): the per-stack blocks in `p_stacks_order` order, followed
by the three run-independent pairs. -/
def substitutions (sub_ses srID : List Char) (use_manual_masks : Bool)
    (p_stacks_order : List Nat) : List (List Char × List Char) :=
  (p_stacks_order.flatMap
    (subBlock sub_ses srID p_stacks_order.length use_manual_masks))
  ++ globalSubs sub_ses srID p_stacks_order.length

/-! ### Success and pairing of the mapped-interface loops -/

theorem denoiseStepMasked_eq {input_images input_masks : List (List Char)}
    {rimgs rmasks : List Nat} {o i m : Nat} {f mk : List Char}
    (hi : pyIndex rimgs o = some i) (hm : pyIndex rmasks o = some m)
    (hf : input_images[i]? = some f) (hmk : input_masks[m]? = some mk) :
    denoiseStepMasked input_images input_masks rimgs rmasks o =
      some { in_file := f, in_mask := some mk } := by
  simp [denoiseStepMasked, hi, hm, hf, hmk]

theorem biasFieldStep_eq {input_images input_masks input_fields : List (List Char)}
    {rimgs rmasks rflds : List Nat} {o i m b : Nat} {f mk fd : List Char}
    (hi : pyIndex rimgs o = some i) (hm : pyIndex rmasks o = some m)
    (hb : pyIndex rflds o = some b)
    (hf : input_images[i]? = some f) (hmk : input_masks[m]? = some mk)
    (hfd : input_fields[b]? = some fd) :
    biasFieldStep input_images input_masks input_fields rimgs rmasks rflds o =
      some { in_file := f, in_mask := mk, in_field := fd } := by
  simp [biasFieldStep, hi, hm, hb, hf, hmk, hfd]

theorem getElem?_isSome_of_pyIndex {l : List Nat} {xs : List (List Char)} {v i : Nat}
    (hlen : l.length = xs.length) (h : pyIndex l v = some i) :
    ∃ x, xs[i]? = some x := by
  have := pyIndex_lt h
  exact ⟨xs[i], List.getElem?_eq_getElem (by omega)⟩

/-- Success and order/identity pairing of the `MultipleBtkNLMDenoising` loop
in the masked case: it succeeds as soon as every requested run index is
carried by some image and some mask, processes one stack per entry of the
effective `stacks_order`, and, when run indices are duplicate-free, the
`j`-th invocation pairs the image and the mask carrying run index
`stacks_order[j]`, wherever they sit in the input lists. -/
theorem multipleBtkNLMDenoising_spec (inp : MultipleDenoiseInputs)
    (rimgs rmasks : List Nat)
    (hri : run_nb_images inp.input_images = some rimgs)
    (hrm : run_nb_masks inp.input_masks = some rmasks)
    (hmasks : 0 < inp.input_masks.length)
    (hmem : ∀ o ∈ effective_stacks_order inp.stacks_order inp.input_images.length,
      o ∈ rimgs ∧ o ∈ rmasks) :
    ∃ calls, multipleBtkNLMDenoising_run inp = some calls ∧
      calls.length =
        (effective_stacks_order inp.stacks_order inp.input_images.length).length ∧
      (rimgs.Nodup → rmasks.Nodup →
        ∀ (j o i m : Nat) (f mk : List Char),
        (effective_stacks_order inp.stacks_order inp.input_images.length)[j]? = some o →
        rimgs[i]? = some o → rmasks[m]? = some o →
        inp.input_images[i]? = some f → inp.input_masks[m]? = some mk →
        calls[j]? = some { in_file := f, in_mask := some mk }) := by
  have hlen_i : rimgs.length = inp.input_images.length := computeRunNbs_length hri
  have hlen_m : rmasks.length = inp.input_masks.length := computeRunNbs_length hrm
  have hstep : ∀ o ∈ effective_stacks_order inp.stacks_order inp.input_images.length,
      (denoiseStepMasked inp.input_images inp.input_masks rimgs rmasks o).isSome := by
    intro o ho
    obtain ⟨i₀, hi₀⟩ := pyIndex_isSome_of_mem (hmem o ho).1
    obtain ⟨m₀, hm₀⟩ := pyIndex_isSome_of_mem (hmem o ho).2
    obtain ⟨f, hf⟩ := getElem?_isSome_of_pyIndex hlen_i hi₀
    obtain ⟨mk, hmk⟩ := getElem?_isSome_of_pyIndex hlen_m hm₀
    rw [denoiseStepMasked_eq hi₀ hm₀ hf hmk]
    rfl
  obtain ⟨cs, hcs, hlen, hget⟩ :=
    processStacks_spec (denoiseStepMasked inp.input_images inp.input_masks rimgs rmasks)
      (effective_stacks_order inp.stacks_order inp.input_images.length) hstep
  refine ⟨cs, ?_, hlen, ?_⟩
  · have hri' : computeRunNbs inp.input_images = some rimgs := hri
    have hrm' : computeRunNbs inp.input_masks = some rmasks := hrm
    show multipleBtkNLMDenoising_run inp = some cs
    simp only [multipleBtkNLMDenoising_run, run_nb_images, run_nb_masks, hri', hrm',
      Option.bind_eq_bind, Option.some_bind]
    rw [if_pos hmasks]
    exact hcs
  · intro hnd_i hnd_m j o i m f mk hj hio hmo hf hmk
    rw [hget j o hj,
      denoiseStepMasked_eq (pyIndex_of_nodup hnd_i hio) (pyIndex_of_nodup hnd_m hmo) hf hmk]

/-- Success and order/identity pairing of the
`MultipleMialsrtkSliceBySliceCorrectBiasField` loop, covering the bias-field
list as well. -/
theorem multipleCorrectBiasField_spec (inp : MultipleCorrectBiasFieldInputs)
    (rimgs rmasks rflds : List Nat)
    (hri : run_nb_images inp.input_images = some rimgs)
    (hrm : run_nb_masks inp.input_masks = some rmasks)
    (hrf : run_nb_fields inp.input_fields = some rflds)
    (hmem : ∀ o ∈ effective_stacks_order inp.stacks_order inp.input_images.length,
      o ∈ rimgs ∧ o ∈ rmasks ∧ o ∈ rflds) :
    ∃ calls, multipleCorrectBiasField_run inp = some calls ∧
      calls.length =
        (effective_stacks_order inp.stacks_order inp.input_images.length).length ∧
      (rimgs.Nodup → rmasks.Nodup → rflds.Nodup →
        ∀ (j o i m b : Nat) (f mk fd : List Char),
        (effective_stacks_order inp.stacks_order inp.input_images.length)[j]? = some o →
        rimgs[i]? = some o → rmasks[m]? = some o → rflds[b]? = some o →
        inp.input_images[i]? = some f → inp.input_masks[m]? = some mk →
        inp.input_fields[b]? = some fd →
        calls[j]? = some { in_file := f, in_mask := mk, in_field := fd }) := by
  have hlen_i : rimgs.length = inp.input_images.length := computeRunNbs_length hri
  have hlen_m : rmasks.length = inp.input_masks.length := computeRunNbs_length hrm
  have hlen_f : rflds.length = inp.input_fields.length := computeRunNbs_length hrf
  have hstep : ∀ o ∈ effective_stacks_order inp.stacks_order inp.input_images.length,
      (biasFieldStep inp.input_images inp.input_masks inp.input_fields
        rimgs rmasks rflds o).isSome := by
    intro o ho
    obtain ⟨i₀, hi₀⟩ := pyIndex_isSome_of_mem (hmem o ho).1
    obtain ⟨m₀, hm₀⟩ := pyIndex_isSome_of_mem (hmem o ho).2.1
    obtain ⟨b₀, hb₀⟩ := pyIndex_isSome_of_mem (hmem o ho).2.2
    obtain ⟨f, hf⟩ := getElem?_isSome_of_pyIndex hlen_i hi₀
    obtain ⟨mk, hmk⟩ := getElem?_isSome_of_pyIndex hlen_m hm₀
    obtain ⟨fd, hfd⟩ := getElem?_isSome_of_pyIndex hlen_f hb₀
    rw [biasFieldStep_eq hi₀ hm₀ hb₀ hf hmk hfd]
    rfl
  obtain ⟨cs, hcs, hlen, hget⟩ :=
    processStacks_spec
      (biasFieldStep inp.input_images inp.input_masks inp.input_fields rimgs rmasks rflds)
      (effective_stacks_order inp.stacks_order inp.input_images.length) hstep
  refine ⟨cs, ?_, hlen, ?_⟩
  · have hri' : computeRunNbs inp.input_images = some rimgs := hri
    have hrm' : computeRunNbs inp.input_masks = some rmasks := hrm
    have hrf' : computeRunNbs inp.input_fields = some rflds := hrf
    show multipleCorrectBiasField_run inp = some cs
    simp only [multipleCorrectBiasField_run, run_nb_images, run_nb_masks, run_nb_fields,
      hri', hrm', hrf', Option.bind_eq_bind, Option.some_bind]
    exact hcs
  · intro hnd_i hnd_m hnd_f j o i m b f mk fd hj hio hmo hbo hf hmk hfd
    rw [hget j o hj,
      biasFieldStep_eq (pyIndex_of_nodup hnd_i hio) (pyIndex_of_nodup hnd_m hmo)
        (pyIndex_of_nodup hnd_f hbo) hf hmk hfd]

/-- On a duplicate-free list of naturals all below the list length, every
position below the length occurs as a value (pigeonhole). -/
theorem mem_of_nodup_lt_length {l : List Nat} (hnd : l.Nodup)
    (hlt : ∀ r ∈ l, r < l.length) : ∀ j, j < l.length → j ∈ l := by
  intro j hj
  have hsub : l.toFinset ⊆ Finset.range l.length := by
    intro x hx
    simp only [List.mem_toFinset] at hx
    simpa using hlt x hx
  have hcard : (Finset.range l.length).card ≤ l.toFinset.card := by
    rw [Finset.card_range, List.toFinset_card_of_nodup hnd]
  have heq := Finset.eq_of_subset_of_card_le hsub hcard
  have hjmem : j ∈ l.toFinset := by
    rw [heq]
    simpa using hj
  simpa using hjmem

theorem effective_stacks_order_of_ne_nil {so : List Nat} (n : Nat) (h : so ≠ []) :
    effective_stacks_order so n = so := by
  simp [effective_stacks_order, h]

/-- C1: for image, mask (and bias-field) lists with pairwise-distinct run
indices and a non-empty `stacks_order` whose entries all occur among those
run indices, the multi-stack mapped interfaces (`MultipleBtkNLMDenoising`
and `MultipleMialsrtkSliceBySliceCorrectBiasField`) process one stack per
`stacks_order` entry, in that exact sequence, and the `j`-th invocation
pairs the image, the mask (and the field) carrying run index
`stacks_order[j]`, wherever those artifacts sit in the input lists. -/
theorem C1_pairing_by_run_index :
    (∀ (inp : MultipleDenoiseInputs) (rimgs rmasks : List Nat),
      run_nb_images inp.input_images = some rimgs →
      run_nb_masks inp.input_masks = some rmasks →
      rimgs.Nodup → rmasks.Nodup →
      inp.stacks_order ≠ [] → 0 < inp.input_masks.length →
      (∀ o ∈ inp.stacks_order, o ∈ rimgs ∧ o ∈ rmasks) →
      ∃ calls, multipleBtkNLMDenoising_run inp = some calls ∧
        calls.length = inp.stacks_order.length ∧
        ∀ (j o i m : Nat) (f mk : List Char),
          inp.stacks_order[j]? = some o →
          rimgs[i]? = some o → rmasks[m]? = some o →
          inp.input_images[i]? = some f → inp.input_masks[m]? = some mk →
          calls[j]? = some { in_file := f, in_mask := some mk }) ∧
    (∀ (inp : MultipleCorrectBiasFieldInputs) (rimgs rmasks rflds : List Nat),
      run_nb_images inp.input_images = some rimgs →
      run_nb_masks inp.input_masks = some rmasks →
      run_nb_fields inp.input_fields = some rflds →
      rimgs.Nodup → rmasks.Nodup → rflds.Nodup →
      inp.stacks_order ≠ [] →
      (∀ o ∈ inp.stacks_order, o ∈ rimgs ∧ o ∈ rmasks ∧ o ∈ rflds) →
      ∃ calls, multipleCorrectBiasField_run inp = some calls ∧
        calls.length = inp.stacks_order.length ∧
        ∀ (j o i m b : Nat) (f mk fd : List Char),
          inp.stacks_order[j]? = some o →
          rimgs[i]? = some o → rmasks[m]? = some o → rflds[b]? = some o →
          inp.input_images[i]? = some f → inp.input_masks[m]? = some mk →
          inp.input_fields[b]? = some fd →
          calls[j]? = some { in_file := f, in_mask := mk, in_field := fd }) := by
  constructor
  · intro inp rimgs rmasks hri hrm hnd_i hnd_m hne hmasks hmem
    have heff := effective_stacks_order_of_ne_nil inp.input_images.length hne
    obtain ⟨calls, hrun, hlen, hpair⟩ :=
      multipleBtkNLMDenoising_spec inp rimgs rmasks hri hrm hmasks
        (by rw [heff]; exact hmem)
    rw [heff] at hlen hpair
    exact ⟨calls, hrun, hlen, hpair hnd_i hnd_m⟩
  · intro inp rimgs rmasks rflds hri hrm hrf hnd_i hnd_m hnd_f hne hmem
    have heff := effective_stacks_order_of_ne_nil inp.input_images.length hne
    obtain ⟨calls, hrun, hlen, hpair⟩ :=
      multipleCorrectBiasField_spec inp rimgs rmasks rflds hri hrm hrf
        (by rw [heff]; exact hmem)
    rw [heff] at hlen hpair
    exact ⟨calls, hrun, hlen, hpair hnd_i hnd_m hnd_f⟩

def c1_denoise_inp : MultipleDenoiseInputs :=
  { input_images := ["s_run-2_T2w.nii.gz".toList, "s_run-0_T2w.nii.gz".toList,
      "s_run-1_T2w.nii.gz".toList],
    input_masks := ["s_run-1_mask.nii.gz".toList, "s_run-2_mask.nii.gz".toList,
      "s_run-0_mask.nii.gz".toList],
    stacks_order := [0, 1, 2] }

def c1_bias_inp : MultipleCorrectBiasFieldInputs :=
  { input_images := ["s_run-2_T2w.nii.gz".toList, "s_run-0_T2w.nii.gz".toList,
      "s_run-1_T2w.nii.gz".toList],
    input_masks := ["s_run-1_mask.nii.gz".toList, "s_run-2_mask.nii.gz".toList,
      "s_run-0_mask.nii.gz".toList],
    input_fields := ["s_run-0_field.nii.gz".toList, "s_run-2_field.nii.gz".toList,
      "s_run-1_field.nii.gz".toList],
    stacks_order := [0, 1, 2] }

/-- Witness for C1 at concrete three-stack inputs whose image, mask and
field lists are scrambled relative to each other. -/
theorem C1_pairing_by_run_index_witness :
    (∃ calls, multipleBtkNLMDenoising_run c1_denoise_inp = some calls ∧
      calls.length = c1_denoise_inp.stacks_order.length ∧
      ∀ (j o i m : Nat) (f mk : List Char),
        c1_denoise_inp.stacks_order[j]? = some o →
        (([2, 0, 1] : List Nat))[i]? = some o → (([1, 2, 0] : List Nat))[m]? = some o →
        c1_denoise_inp.input_images[i]? = some f →
        c1_denoise_inp.input_masks[m]? = some mk →
        calls[j]? = some { in_file := f, in_mask := some mk }) ∧
    (∃ calls, multipleCorrectBiasField_run c1_bias_inp = some calls ∧
      calls.length = c1_bias_inp.stacks_order.length ∧
      ∀ (j o i m b : Nat) (f mk fd : List Char),
        c1_bias_inp.stacks_order[j]? = some o →
        (([2, 0, 1] : List Nat))[i]? = some o → (([1, 2, 0] : List Nat))[m]? = some o →
        (([0, 2, 1] : List Nat))[b]? = some o →
        c1_bias_inp.input_images[i]? = some f →
        c1_bias_inp.input_masks[m]? = some mk →
        c1_bias_inp.input_fields[b]? = some fd →
        calls[j]? = some { in_file := f, in_mask := mk, in_field := fd }) :=
  ⟨C1_pairing_by_run_index.1 c1_denoise_inp [2, 0, 1] [1, 2, 0]
      (by decide) (by decide) (by decide) (by decide) (by decide) (by decide) (by decide),
   C1_pairing_by_run_index.2 c1_bias_inp [2, 0, 1] [1, 2, 0] [0, 2, 1]
      (by decide) (by decide) (by decide) (by decide) (by decide) (by decide) (by decide)
      (by decide)⟩

def c3_images : List (List Char) :=
  ["s_run-1_T2w.nii.gz".toList, "s_run-2_T2w.nii.gz".toList]

/-- Counterexample to C3 as stated: with an empty `stacks_order` and two
images whose run indices are `1` and `2` (both present, ascending order
`[1, 2]`), the interface defaults to the positional range `[0, 1]` and
raises (`list.index(0)` fails), processing no stack at all instead of every
present run index in ascending order. -/
theorem C3_counterexample :
    run_nb_images c3_images = some [1, 2] ∧
    effective_stacks_order [] c3_images.length = [0, 1] ∧
    multipleBtkNLMDenoising_run
      { input_images := c3_images, input_masks := [], stacks_order := [] } = none := by
  decide

/-- C3 (amended): when `stacks_order` is empty or unset, the processing
order defaults to `list(range(0, len(input_images)))`, the positional index
range — not to the run indices present.  Consequently the default processes
every present run index in ascending order exactly when the run indices of
the images are `0 .. n-1`; under that extra hypothesis (plus the
corresponding mask coverage) the `j`-th invocation handles run index `j`. -/
theorem C3_amended_default_order (inp : MultipleDenoiseInputs) (rimgs rmasks : List Nat)
    (hempty : inp.stacks_order = [])
    (hri : run_nb_images inp.input_images = some rimgs)
    (hrm : run_nb_masks inp.input_masks = some rmasks)
    (hmasks : 0 < inp.input_masks.length)
    (hnd : rimgs.Nodup) (hnd_m : rmasks.Nodup)
    (hlt : ∀ r ∈ rimgs, r < inp.input_images.length)
    (hmaskmem : ∀ r, r < inp.input_images.length → r ∈ rmasks) :
    effective_stacks_order inp.stacks_order inp.input_images.length =
      List.range inp.input_images.length ∧
    ∃ calls, multipleBtkNLMDenoising_run inp = some calls ∧
      calls.length = inp.input_images.length ∧
      ∀ (j i : Nat) (f : List Char), j < inp.input_images.length →
        rimgs[i]? = some j → inp.input_images[i]? = some f →
        ∃ c, calls[j]? = some c ∧ c.in_file = f := by
  have hlen_i : rimgs.length = inp.input_images.length := computeRunNbs_length hri
  have hlen_m : rmasks.length = inp.input_masks.length := computeRunNbs_length hrm
  have heff : effective_stacks_order inp.stacks_order inp.input_images.length =
      List.range inp.input_images.length := by
    simp [effective_stacks_order, hempty]
  have himgmem : ∀ j, j < inp.input_images.length → j ∈ rimgs := by
    intro j hj
    exact mem_of_nodup_lt_length hnd (fun r hr => hlen_i ▸ hlt r hr) j (by omega)
  have hmem : ∀ o ∈ effective_stacks_order inp.stacks_order inp.input_images.length,
      o ∈ rimgs ∧ o ∈ rmasks := by
    intro o ho
    rw [heff, List.mem_range] at ho
    exact ⟨himgmem o ho, hmaskmem o ho⟩
  obtain ⟨calls, hrun, hlen, hpair⟩ :=
    multipleBtkNLMDenoising_spec inp rimgs rmasks hri hrm hmasks hmem
  refine ⟨heff, calls, hrun, by rw [hlen, heff, List.length_range], ?_⟩
  intro j i f hj hij hf
  obtain ⟨m, hm⟩ := pyIndex_isSome_of_mem (hmaskmem j hj)
  have hmj : rmasks[m]? = some j := pyIndex_getElem hm
  obtain ⟨mk, hmk⟩ := getElem?_isSome_of_pyIndex hlen_m hm
  refine ⟨{ in_file := f, in_mask := some mk }, ?_, rfl⟩
  exact hpair hnd hnd_m j j i m f mk (by rw [heff]; simp [hj]) hij hmj hf hmk

def c3w_inp : MultipleDenoiseInputs :=
  { input_images := ["s_run-2_T2w.nii.gz".toList, "s_run-0_T2w.nii.gz".toList,
      "s_run-1_T2w.nii.gz".toList],
    input_masks := ["s_run-1_mask.nii.gz".toList, "s_run-2_mask.nii.gz".toList,
      "s_run-0_mask.nii.gz".toList],
    stacks_order := [] }

/-- Witness for the amended C3 at a concrete input whose run indices are
exactly `0..2`. -/
theorem C3_amended_default_order_witness :
    effective_stacks_order c3w_inp.stacks_order c3w_inp.input_images.length =
      List.range c3w_inp.input_images.length ∧
    ∃ calls, multipleBtkNLMDenoising_run c3w_inp = some calls ∧
      calls.length = c3w_inp.input_images.length ∧
      ∀ (j i : Nat) (f : List Char), j < c3w_inp.input_images.length →
        (([2, 0, 1] : List Nat))[i]? = some j → c3w_inp.input_images[i]? = some f →
        ∃ c, calls[j]? = some c ∧ c.in_file = f :=
  C3_amended_default_order c3w_inp [2, 0, 1] [1, 2, 0] (by decide) (by decide) (by decide)
    (by decide) (by decide) (by decide) (by decide) (by decide)

def c4_inp : MultipleDenoiseInputs :=
  { input_images := ["s_run-0_T2w.nii.gz".toList, "s_run-1_T2w.nii.gz".toList,
      "s_run-2_T2w.nii.gz".toList],
    input_masks := [], stacks_order := [0, 1, 2] }

/-- The external-kernel boundary oracle for the C4 scenario: the transform of
the `run-1` stack fails (creates no output), the others succeed. -/
def c4_cmd_succeeds : List Char → Bool :=
  fun f => decide (f ≠ "s_run-1_T2w.nii.gz".toList)

/-- C4: on a 3-stack collection where one stack's external transform fails,
`BtkNLMDenoising._run_interface` catches the exception (printing `Failed`)
and returns normally, and `MultipleBtkNLMDenoising._list_outputs` reports
the globbed 2-element output collection: the stage completes normally
(first component `true`) with a short output list instead of signalling a
stage-level failure.  This evaluates the code at the failing input of the
code_bug verdict. -/
theorem C4_failure_swallowed :
    multipleBtkNLMDenoising_stage c4_cmd_succeeds c4_inp =
      some (true, [denoise_out_file ("s_run-0_T2w.nii.gz".toList),
                   denoise_out_file ("s_run-2_T2w.nii.gz".toList)]) ∧
    c4_inp.input_images.length = 3 := by
  decide

def c5_args : MainArgs :=
  { bids_dir := "/fetaldata".toList, output_dir := "/output".toList,
    subject := "01".toList, p_stacksOrder := [1, 0, 2], session := none,
    paramTV := none, number_of_cores := 1, srID := some ("01".toList),
    masks_derivatives_dir := [], skip_svr := true, do_refine_hr_mask := false }

/-- C5: the `skip_svr` flag accepted by `main` never reaches pipeline
construction: `skip_svr` is not a parameter of `AnatomicalPipeline.__init__`,
and the ten-positional-argument construction call raises `TypeError`, so
with `skip_svr = True` the pipeline graph is never built (let alone altered
to identity transforms).  This evaluates the code at the failing input of
the code_bug verdict. -/
theorem C5_skip_svr_never_reaches_pipeline :
    c5_args.skip_svr = true ∧
    main c5_args = Except.error PyError.typeError ∧
    "skip_svr" ∉ anatomicalPipeline_init_params := by
  refine ⟨rfl, rfl, ?_⟩
  decide

/-- C6: with 8 available cores and OpenMP proportion 2, the negotiation
returns `(4,2)` for requested `(0,0)`, `(8,1)` with a warning for `(10,0)`,
`(3,2)` for `(3,0)`, and the default `(4,2)` (with a warning) for `(5,5)`
whose product 25 exceeds 8. -/
theorem C6_resolve_cores_examples :
    check_and_return_valid_nb_of_cores 0 0 2 8 = some ((4, 2), false) ∧
    check_and_return_valid_nb_of_cores 10 0 2 8 = some ((8, 1), true) ∧
    check_and_return_valid_nb_of_cores 3 0 2 8 = some ((3, 2), false) ∧
    check_and_return_valid_nb_of_cores 5 5 2 8 = some ((4, 2), true) := by
  decide

/-- Counterexample to C7 as stated: with 8 available cores and requests
`openmp = 8`, `nipype = 1`, neither request alone nor their product `8`
strictly exceeds 8, so the claim requires the pair to be used as given;
the code instead discards both (the `openmp >= nb_of_cores` branch) and
resets to the default `(4,2)` with a warning. -/
theorem C7_counterexample :
    ¬(8 > 8) ∧ ¬(1 > 8) ∧ ¬(8 * 1 > 8) ∧
    check_and_return_valid_nb_of_cores 8 1 2 8 = some ((4, 2), true) ∧
    ((4, 2) : Nat × Nat) ≠ (8, 1) := by
  decide

theorem return_default_of_two_le {n : Nat} (hn : 2 ≤ n) :
    return_default_nb_of_cores n 2 = some (n / 2, n / (n / 2)) := by
  have h2 : n / 2 ≠ 0 := by omega
  simp [return_default_nb_of_cores, h2]

/-- C7 (amended): for both requests positive and at least two available
cores, the pair is discarded and reset to the default split
`(n / 2, n / (n / 2))` with a warning iff `openmp ≥ n` or
`openmp * nipype > n` (in particular `nipype > n` forces the reset through
the product); otherwise the pair is used exactly as given.  The difference
with the claim as stated is the boundary `openmp = n` (with `nipype = 1`),
which the code resets although nothing strictly exceeds `n`. -/
theorem C7_amended_both_nonzero (o p n : Nat) (ho : 0 < o) (hp : 0 < p) (hn : 2 ≤ n) :
    ((n ≤ o ∨ n < o * p) →
      check_and_return_valid_nb_of_cores o p 2 n = some ((n / 2, n / (n / 2)), true)) ∧
    (o < n → o * p ≤ n →
      check_and_return_valid_nb_of_cores o p 2 n = some ((o, p), false)) := by
  have hd := return_default_of_two_le hn
  constructor
  · intro hcond
    rw [check_and_return_valid_nb_of_cores, if_neg (by omega), if_neg (by omega),
      if_neg (by omega)]
    by_cases h1 : n ≤ p
    · rw [if_pos h1]
      by_cases h2 : n ≤ o
      · rw [if_pos h2, hd]
        rfl
      · rw [if_neg h2, if_pos (by omega), hd]
        rfl
    · rw [if_neg h1]
      by_cases h2 : n ≤ o
      · rw [if_pos h2, hd]
        rfl
      · rw [if_neg h2, if_pos (by omega), hd]
        rfl
  · intro hlt hle
    rw [check_and_return_valid_nb_of_cores, if_neg (by omega), if_neg (by omega),
      if_neg (by omega)]
    by_cases h1 : n ≤ p
    · rw [if_pos h1, if_neg (by omega), if_neg (by omega)]
    · rw [if_neg h1, if_neg (by omega), if_neg (by omega)]

/-- Witness for the amended C7: the boundary pair `(8,1)` is reset to
`(4,2)` with a warning, while `(2,3)` (product 6 ≤ 8) is used as given. -/
theorem C7_amended_both_nonzero_witness :
    check_and_return_valid_nb_of_cores 8 1 2 8 = some ((8 / 2, 8 / (8 / 2)), true) ∧
    check_and_return_valid_nb_of_cores 2 3 2 8 = some ((2, 3), false) :=
  ⟨(C7_amended_both_nonzero 8 1 8 (by decide) (by decide) (by decide)).1 (Or.inl (by decide)),
   (C7_amended_both_nonzero 2 3 8 (by decide) (by decide) (by decide)).2 (by decide) (by decide)⟩

/-- C9: every invocation of `main` raises `TypeError` when constructing the
pipeline: it passes the ten positional arguments of
`main_pipeline_call_args` to `AnatomicalPipeline.__init__`, which accepts
only the eight parameters of `anatomicalPipeline_init_params`, so
`create_workflow` is never reached. -/
theorem C9_main_always_type_error (a : MainArgs) :
    main_pipeline_call_args.length = 10 ∧
    anatomicalPipeline_init_params.length = 8 ∧
    main a = Except.error PyError.typeError := ⟨rfl, rfl, rfl⟩

/-- C10: `AnatomicalPipeline.run` with any `number_of_cores ≠ 1` evaluates
`self.number_of_cores`, an attribute assigned nowhere on the class or the
instance, and raises `AttributeError` before the workflow executes; only
`number_of_cores = 1` executes the workflow. -/
theorem C10_run_multiproc_attribute_error :
    (∀ k : Int, k ≠ 1 → anatomicalPipeline_run k = Except.error PyError.attributeError) ∧
    anatomicalPipeline_run 1 = Except.ok true := by
  constructor
  · intro k hk
    have hattr : pyGetAttr anatomicalPipeline_attributes "number_of_cores" =
        Except.error PyError.attributeError := by
      rw [pyGetAttr, if_neg (by decide)]
    rw [anatomicalPipeline_run, if_pos hk]
    rw [hattr]
    rfl
  · rfl

/-- Witness for C10 at `number_of_cores = 4`. -/
theorem C10_run_multiproc_attribute_error_witness :
    anatomicalPipeline_run 4 = Except.error PyError.attributeError ∧
    anatomicalPipeline_run 1 = Except.ok true :=
  ⟨C10_run_multiproc_attribute_error.1 4 (by decide),
   C10_run_multiproc_attribute_error.2⟩

theorem isDigit_ne_r {c : Char} (h : c.isDigit = true) : c ≠ 'r' := by
  intro he
  subst he
  exact absurd h (by decide)

theorem isDigit_ne_underscore {c : Char} (h : c.isDigit = true) : c ≠ '_' := by
  intro he
  subst he
  exact absurd h (by decide)

/-- C2: on any path whose first occurrence of the literal marker `run-` is
followed by a (non-empty) decimal digit string terminated by the next `_`,
the extracted per-stack identity is exactly the decimal value of that digit
string; and the extraction loops applied to the image, mask and bias-field
lists are one and the same procedure. -/
theorem C2_run_index_extraction (pre ds post : List Char)
    (hfirst : ∀ k, k < pre.length →
      ¬ (runMarker.isPrefixOf (pre.drop k ++ runMarker ++ (ds ++ '_' :: post)) = true))
    (hne : ds ≠ []) (hdig : ds.all Char.isDigit = true) :
    extract_run_nb (pre ++ runMarker ++ (ds ++ '_' :: post)) = some (decValue ds) ∧
    run_nb_images = run_nb_masks ∧ run_nb_masks = run_nb_fields := by
  refine ⟨?_, rfl, rfl⟩
  have hdig' : ∀ c ∈ ds, c.isDigit = true := by
    intro c hc
    exact List.all_eq_true.mp hdig c hc
  have hA := pySplit_first_marker runMarker (by decide) pre (ds ++ '_' :: post) hfirst
  have hsafe_r : ∀ c ∈ ds, c ≠ 'r' := fun c hc => isDigit_ne_r (hdig' c hc)
  obtain ⟨T, R, hT, hds⟩ :=
    pySplit_safe_front 'r' ['u', 'n', '-'] ds ('_' :: post) hsafe_r
  have hu : ('_' :: post) = ['_'] ++ post := rfl
  obtain ⟨P, R', hP, hunder⟩ := pySplit_cons runMarker post '_' (by
    exact isPrefixOf_cons_ne ['u', 'n', '-'] post (by decide))
  have hTP : T = '_' :: P ∧ R = R' := by
    have hrm : (runMarker : List Char) = 'r' :: ['u', 'n', '-'] := rfl
    rw [hrm] at hunder
    rw [hunder] at hT
    injection hT with h1 h2
    exact ⟨h1.symm, h2.symm⟩
  rw [hTP.1, hTP.2] at hds
  -- the full split of the path
  have hsplit : pySplit runMarker (pre ++ runMarker ++ (ds ++ '_' :: post)) =
      pre :: (ds ++ '_' :: P) :: R' := by
    rw [hA]
    rw [show pySplit runMarker (ds ++ '_' :: post) = (ds ++ '_' :: P) :: R' from hds]
  -- the inner split on '_' of the second element
  have hsafe_u : ∀ c ∈ ds, c ≠ '_' := fun c hc => isDigit_ne_underscore (hdig' c hc)
  obtain ⟨T', R'', hT', hds'⟩ := pySplit_safe_front '_' [] ds ('_' :: P) hsafe_u
  have hemit : pySplit ['_'] ('_' :: P) = [] :: pySplit ['_'] P := by
    have := pySplit_emit ['_'] P (by decide)
    simpa using this
  have hT'nil : T' = [] := by
    rw [hemit] at hT'
    injection hT' with h1 h2
    exact h1.symm
  subst hT'nil
  rw [extract_run_nb, hsplit]
  show pyInt ((pySplit ['_'] (ds ++ '_' :: P)).headD []) = some (decValue ds)
  rw [hds']
  simp only [List.headD_cons, List.append_nil]
  simp [pyInt, hne, hdig]

/-- Witness for C2 on the concrete path `sub-01_run-13_T2w.nii.gz`. -/
theorem C2_run_index_extraction_witness :
    extract_run_nb ("sub-01_".toList ++ runMarker ++ (['1', '3'] ++ '_' :: "T2w.nii.gz".toList)) =
      some (decValue ['1', '3']) ∧
    run_nb_images = run_nb_masks ∧ run_nb_masks = run_nb_fields :=
  C2_run_index_extraction ("sub-01_".toList) ['1', '3'] ("T2w.nii.gz".toList)
    (by decide) (by decide) (by decide)

/-! ### Distinctness toolkit for the substitution filenames -/

theorem append_ne_append_left {A x y : List Char} (h : x ≠ y) : A ++ x ≠ A ++ y :=
  fun he => h (List.append_cancel_left he)

/-- Two appended strings differ when their final chunks differ at some
position counted from the right end. -/
theorem append_ne_of_rev_ne (k : Nat) {c d : List Char}
    (hc : (c.reverse[k]?).isSome = true) (hd : (d.reverse[k]?).isSome = true)
    (hne : c.reverse[k]? ≠ d.reverse[k]?) (A B : List Char) : A ++ c ≠ B ++ d := by
  obtain ⟨x, hx⟩ := Option.isSome_iff_exists.mp hc
  obtain ⟨y, hy⟩ := Option.isSome_iff_exists.mp hd
  intro h
  have hrev := congrArg List.reverse h
  rw [List.reverse_append, List.reverse_append] at hrev
  have hkc : k < c.reverse.length := by
    by_contra hk
    rw [List.getElem?_eq_none (by omega)] at hx
    cases hx
  have hkd : k < d.reverse.length := by
    by_contra hk
    rw [List.getElem?_eq_none (by omega)] at hy
    cases hy
  have h1 : (c.reverse ++ A.reverse)[k]? = some x := by
    rw [List.getElem?_append_left hkc]
    exact hx
  have h2 : (d.reverse ++ B.reverse)[k]? = some y := by
    rw [List.getElem?_append_left hkd]
    exact hy
  rw [hrev] at h1
  rw [h1] at h2
  apply hne
  rw [hx, hy]
  injection h2 with h3
  rw [h3]

/-- Blocks of distinct stacks cannot share a filename: the decimal digits of
the run index followed by `'_'` form a prefix code. -/
theorem run_block_ne {a b : Nat} (hab : a ≠ b) (x y : List Char) :
    natToChars a ++ '_' :: x ≠ natToChars b ++ '_' :: y := by
  intro h
  obtain ⟨h1, -, -⟩ := digits_append_inj (natToChars a) (natToChars b) x y
    (natToChars_all_digits a) (natToChars_all_digits b) (by decide) (by decide) h
  exact hab (natToChars_inj h1)

theorem decomp_t1 : "_T2w_nlm_uni_bcorr_histnorm.nii.gz".toList =
    '_' :: "T2w_nlm_uni_bcorr_histnorm.nii.gz".toList := by decide

theorem decomp_t2 : "_T2w_brainMask.nii.gz".toList =
    '_' :: "T2w_brainMask.nii.gz".toList := by decide

theorem decomp_t3 : "_T2w_uni_bcorr_histnorm.nii.gz".toList =
    '_' :: "T2w_uni_bcorr_histnorm.nii.gz".toList := by decide

theorem decomp_t4pre : "_T2w_nlm_uni_bcorr_histnorm_transform_".toList =
    '_' :: "T2w_nlm_uni_bcorr_histnorm_transform_".toList := by decide

theorem decomp_t5 : "_T2w_uni_bcorr_histnorm_LRmask.nii.gz".toList =
    '_' :: "T2w_uni_bcorr_histnorm_LRmask.nii.gz".toList := by decide

/-- The internal filenames of one per-stack block are pairwise distinct. -/
theorem subBlock_fst_nodup (sub_ses srID : List Char) (N : Nat) (umm : Bool) (s : Nat) :
    ((subBlock sub_ses srID N umm s).map Prod.fst).Nodup := by
  cases umm
  case false =>
    simp only [subBlock, Bool.false_eq_true, if_false, List.map_append, List.map_cons,
      List.map_nil, List.cons_append, List.nil_append, List.nodup_cons, List.mem_cons,
      List.mem_singleton, List.not_mem_nil, not_or, not_false_iff, and_true, List.nodup_nil]
    refine ⟨⟨?_, ?_, ?_, ?_⟩, ⟨?_, ?_, ?_⟩, ⟨?_, ?_⟩, ?_⟩
    · exact append_ne_append_left (by decide)
    · exact append_ne_append_left (by decide)
    · exact append_ne_of_rev_ne 0 (by decide) (by decide) (by decide) _ _
    · exact append_ne_append_left (by decide)
    · exact append_ne_append_left (by decide)
    · exact append_ne_of_rev_ne 0 (by decide) (by decide) (by decide) _ _
    · exact append_ne_append_left (by decide)
    · exact append_ne_of_rev_ne 0 (by decide) (by decide) (by decide) _ _
    · exact append_ne_append_left (by decide)
    · exact append_ne_of_rev_ne 0 (by decide) (by decide) (by decide) _ _
  case true =>
    simp only [subBlock, if_true, List.map_append, List.map_cons,
      List.map_nil, List.cons_append, List.nil_append, List.nodup_cons, List.mem_cons,
      List.mem_singleton, List.not_mem_nil, not_or, not_false_iff, and_true, List.nodup_nil]
    refine ⟨⟨?_, ?_, ?_⟩, ⟨?_, ?_⟩, ?_⟩
    · exact append_ne_append_left (by decide)
    · exact append_ne_of_rev_ne 0 (by decide) (by decide) (by decide) _ _
    · exact append_ne_append_left (by decide)
    · exact append_ne_of_rev_ne 0 (by decide) (by decide) (by decide) _ _
    · exact append_ne_append_left (by decide)
    · exact append_ne_of_rev_ne 0 (by decide) (by decide) (by decide) _ _

/-- Blocks of distinct run indices share no internal filename. -/
theorem subBlock_fst_disjoint (sub_ses srID : List Char) (N : Nat) (umm : Bool)
    {a b : Nat} (hab : a ≠ b) :
    ((subBlock sub_ses srID N umm a).map Prod.fst).Disjoint
      ((subBlock sub_ses srID N umm b).map Prod.fst) := by
  intro x hxa hxb
  cases umm
  case false =>
    simp only [subBlock, Bool.false_eq_true, if_false, List.map_append, List.map_cons,
      List.map_nil, List.cons_append, List.nil_append, List.mem_cons, List.mem_singleton,
      List.not_mem_nil, or_false] at hxa hxb
    rcases hxa with rfl | rfl | rfl | rfl | rfl <;>
      rcases hxb with h | h | h | h | h <;>
      · simp only [List.append_assoc, decomp_t1, decomp_t2, decomp_t3, decomp_t4pre,
          decomp_t5, List.cons_append] at h
        exact run_block_ne hab _ _ (List.append_cancel_left (List.append_cancel_left h))
  case true =>
    simp only [subBlock, if_true, List.map_append, List.map_cons,
      List.map_nil, List.cons_append, List.nil_append, List.mem_cons, List.mem_singleton,
      List.not_mem_nil, or_false] at hxa hxb
    rcases hxa with rfl | rfl | rfl | rfl <;>
      rcases hxb with h | h | h | h <;>
      · simp only [List.append_assoc, decomp_t1, decomp_t3, decomp_t4pre,
          decomp_t5, List.cons_append] at h
        exact run_block_ne hab _ _ (List.append_cancel_left (List.append_cancel_left h))

/-- The three run-independent internal filenames are pairwise distinct. -/
theorem globalSubs_fst_nodup (sub_ses srID : List Char) (N : Nat) :
    ((globalSubs sub_ses srID N).map Prod.fst).Nodup := by
  simp only [globalSubs, List.map_cons, List.map_nil, List.nodup_cons, List.mem_cons,
    List.mem_singleton, List.not_mem_nil, not_or, not_false_iff, and_true, List.nodup_nil]
  exact ⟨⟨append_ne_of_rev_ne 7 (by decide) (by decide) (by decide) _ _,
          append_ne_of_rev_ne 7 (by decide) (by decide) (by decide) _ _⟩,
         append_ne_of_rev_ne 7 (by decide) (by decide) (by decide) _ _⟩

/-- No per-stack internal filename coincides with a run-independent one. -/
theorem subBlock_global_fst_disjoint (sub_ses srID : List Char) (N : Nat) (umm : Bool)
    (s : Nat) : ∀ x ∈ (subBlock sub_ses srID N umm s).map Prod.fst,
      x ∉ (globalSubs sub_ses srID N).map Prod.fst := by
  intro x hx hg
  simp only [globalSubs, List.map_cons, List.map_nil, List.mem_cons, List.mem_singleton,
    List.not_mem_nil, or_false] at hg
  cases umm
  case false =>
    simp only [subBlock, Bool.false_eq_true, if_false, List.map_append, List.map_cons,
      List.map_nil, List.cons_append, List.nil_append, List.mem_cons, List.mem_singleton,
      List.not_mem_nil, or_false] at hx
    rcases hx with rfl | rfl | rfl | rfl | rfl
    · rcases hg with h | h | h
      · exact append_ne_of_rev_ne 7 (by decide) (by decide) (by decide) _ _ h
      · exact append_ne_of_rev_ne 7 (by decide) (by decide) (by decide) _ _ h
      · exact append_ne_of_rev_ne 7 (by decide) (by decide) (by decide) _ _ h
    · rcases hg with h | h | h
      · exact append_ne_of_rev_ne 7 (by decide) (by decide) (by decide) _ _ h
      · exact append_ne_of_rev_ne 7 (by decide) (by decide) (by decide) _ _ h
      · exact append_ne_of_rev_ne 11 (by decide) (by decide) (by decide) _ _ h
    · rcases hg with h | h | h
      · exact append_ne_of_rev_ne 7 (by decide) (by decide) (by decide) _ _ h
      · exact append_ne_of_rev_ne 7 (by decide) (by decide) (by decide) _ _ h
      · exact append_ne_of_rev_ne 7 (by decide) (by decide) (by decide) _ _ h
    · rcases hg with h | h | h
      · exact append_ne_of_rev_ne 0 (by decide) (by decide) (by decide) _ _ h
      · exact append_ne_of_rev_ne 0 (by decide) (by decide) (by decide) _ _ h
      · exact append_ne_of_rev_ne 0 (by decide) (by decide) (by decide) _ _ h
    · rcases hg with h | h | h
      · exact append_ne_of_rev_ne 7 (by decide) (by decide) (by decide) _ _ h
      · exact append_ne_of_rev_ne 7 (by decide) (by decide) (by decide) _ _ h
      · exact append_ne_of_rev_ne 10 (by decide) (by decide) (by decide) _ _ h
  case true =>
    simp only [subBlock, if_true, List.map_append, List.map_cons,
      List.map_nil, List.cons_append, List.nil_append, List.mem_cons, List.mem_singleton,
      List.not_mem_nil, or_false] at hx
    rcases hx with rfl | rfl | rfl | rfl
    · rcases hg with h | h | h
      · exact append_ne_of_rev_ne 7 (by decide) (by decide) (by decide) _ _ h
      · exact append_ne_of_rev_ne 7 (by decide) (by decide) (by decide) _ _ h
      · exact append_ne_of_rev_ne 7 (by decide) (by decide) (by decide) _ _ h
    · rcases hg with h | h | h
      · exact append_ne_of_rev_ne 7 (by decide) (by decide) (by decide) _ _ h
      · exact append_ne_of_rev_ne 7 (by decide) (by decide) (by decide) _ _ h
      · exact append_ne_of_rev_ne 7 (by decide) (by decide) (by decide) _ _ h
    · rcases hg with h | h | h
      · exact append_ne_of_rev_ne 0 (by decide) (by decide) (by decide) _ _ h
      · exact append_ne_of_rev_ne 0 (by decide) (by decide) (by decide) _ _ h
      · exact append_ne_of_rev_ne 0 (by decide) (by decide) (by decide) _ _ h
    · rcases hg with h | h | h
      · exact append_ne_of_rev_ne 7 (by decide) (by decide) (by decide) _ _ h
      · exact append_ne_of_rev_ne 7 (by decide) (by decide) (by decide) _ _ h
      · exact append_ne_of_rev_ne 10 (by decide) (by decide) (by decide) _ _ h

/-- The first components of the full substitution list are pairwise
distinct when `p_stacks_order` is. -/
theorem substitutions_fst_nodup (sub_ses srID : List Char) (umm : Bool) (so : List Nat)
    (hnd : so.Nodup) : ((substitutions sub_ses srID umm so).map Prod.fst).Nodup := by
  rw [substitutions, List.map_append]
  apply List.Nodup.append
  · rw [List.map_flatMap, List.nodup_flatMap]
    constructor
    · intro s _
      exact subBlock_fst_nodup sub_ses srID so.length umm s
    · exact List.Pairwise.imp
        (fun hab => subBlock_fst_disjoint sub_ses srID so.length umm hab) hnd
  · exact globalSubs_fst_nodup sub_ses srID so.length
  · intro x hx hg
    rw [List.map_flatMap, List.mem_flatMap] at hx
    obtain ⟨s, -, hxs⟩ := hx
    exact subBlock_global_fst_disjoint sub_ses srID so.length umm s x hxs hg

theorem decomp_id : "_id-".toList = '_' :: "id-".toList := by decide

theorem decomp_desc : "_desc-brain_mask.nii.gz".toList =
    '_' :: "desc-brain_mask.nii.gz".toList := by decide

/-- The brain-mask external name cannot coincide with an `_id-`-tagged one. -/
theorem desc_ne_id (srID X : List Char) :
    "_desc-brain_mask.nii.gz".toList ≠ "_id-".toList ++ (srID ++ X) := by
  intro h
  rw [show "_desc-brain_mask.nii.gz".toList =
        '_' :: 'd' :: "esc-brain_mask.nii.gz".toList from by decide,
      show "_id-".toList = '_' :: 'i' :: "d-".toList from by decide,
      List.cons_append, List.cons_append] at h
  injection h with h1 h2
  injection h2 with h3 h4
  exact absurd h3 (by decide)

theorem run_ne_rec_sdi (X Y : List Char) :
    "_run-".toList ++ X ≠ "_rec-SDI".toList ++ Y := by
  intro h
  rw [show "_run-".toList = "_r".toList ++ 'u' :: "n-".toList from by decide,
      show "_rec-SDI".toList = "_r".toList ++ 'e' :: "c-SDI".toList from by decide,
      List.append_assoc, List.append_assoc, List.cons_append, List.cons_append] at h
  have h2 := List.append_cancel_left h
  injection h2 with h3 h4
  exact absurd h3 (by decide)

theorem run_ne_rec_sr (X Y : List Char) :
    "_run-".toList ++ X ≠ "_rec-SR".toList ++ Y := by
  intro h
  rw [show "_run-".toList = "_r".toList ++ 'u' :: "n-".toList from by decide,
      show "_rec-SR".toList = "_r".toList ++ 'e' :: "c-SR".toList from by decide,
      List.append_assoc, List.append_assoc, List.cons_append, List.cons_append] at h
  have h2 := List.append_cancel_left h
  injection h2 with h3 h4
  exact absurd h3 (by decide)

theorem rec_sdi_ne_sr (X Y : List Char) :
    "_rec-SDI".toList ++ X ≠ "_rec-SR".toList ++ Y := by
  intro h
  rw [show "_rec-SDI".toList = "_rec-S".toList ++ 'D' :: "I".toList from by decide,
      show "_rec-SR".toList = "_rec-S".toList ++ 'R' :: ([] : List Char) from by decide,
      List.append_assoc, List.append_assoc, List.cons_append, List.cons_append] at h
  have h2 := List.append_cancel_left h
  injection h2 with h3 h4
  exact absurd h3 (by decide)

/-- The external filenames of one per-stack block are pairwise distinct. -/
theorem subBlock_snd_nodup (sub_ses srID : List Char) (N : Nat) (umm : Bool) (s : Nat) :
    ((subBlock sub_ses srID N umm s).map Prod.snd).Nodup := by
  cases umm
  case false =>
    simp only [subBlock, Bool.false_eq_true, if_false, List.map_append, List.map_cons,
      List.map_nil, List.cons_append, List.nil_append, List.nodup_cons, List.mem_cons,
      List.mem_singleton, List.not_mem_nil, not_or, not_false_iff, and_true, List.nodup_nil]
    refine ⟨⟨?_, ?_, ?_, ?_⟩, ⟨?_, ?_, ?_⟩, ⟨?_, ?_⟩, ?_⟩
    · exact append_ne_of_rev_ne 7 (by decide) (by decide) (by decide) _ _
    · exact append_ne_append_left (by decide)
    · exact append_ne_append_left (by decide)
    · exact append_ne_append_left (by decide)
    · exact append_ne_of_rev_ne 7 (by decide) (by decide) (by decide) _ _
    · exact append_ne_of_rev_ne 0 (by decide) (by decide) (by decide) _ _
    · intro h
      simp only [List.append_assoc] at h
      have h2 := List.append_cancel_left (List.append_cancel_left (List.append_cancel_left h))
      exact desc_ne_id srID _ h2
    · exact append_ne_append_left (by decide)
    · exact append_ne_append_left (by decide)
    · exact append_ne_append_left (by decide)
  case true =>
    simp only [subBlock, if_true, List.map_append, List.map_cons,
      List.map_nil, List.cons_append, List.nil_append, List.nodup_cons, List.mem_cons,
      List.mem_singleton, List.not_mem_nil, not_or, not_false_iff, and_true, List.nodup_nil]
    refine ⟨⟨?_, ?_, ?_⟩, ⟨?_, ?_⟩, ?_⟩
    · exact append_ne_append_left (by decide)
    · exact append_ne_append_left (by decide)
    · exact append_ne_append_left (by decide)
    · exact append_ne_append_left (by decide)
    · exact append_ne_append_left (by decide)
    · exact append_ne_append_left (by decide)

/-- Blocks of distinct run indices share no external filename. -/
theorem subBlock_snd_disjoint (sub_ses srID : List Char) (N : Nat) (umm : Bool)
    {a b : Nat} (hab : a ≠ b) :
    ((subBlock sub_ses srID N umm a).map Prod.snd).Disjoint
      ((subBlock sub_ses srID N umm b).map Prod.snd) := by
  intro x hxa hxb
  cases umm
  case false =>
    simp only [subBlock, Bool.false_eq_true, if_false, List.map_append, List.map_cons,
      List.map_nil, List.cons_append, List.nil_append, List.mem_cons, List.mem_singleton,
      List.not_mem_nil, or_false] at hxa hxb
    rcases hxa with rfl | rfl | rfl | rfl | rfl <;>
      rcases hxb with h | h | h | h | h <;>
      · simp only [List.append_assoc, decomp_id, decomp_desc, List.cons_append] at h
        exact run_block_ne hab _ _ (List.append_cancel_left (List.append_cancel_left h))
  case true =>
    simp only [subBlock, if_true, List.map_append, List.map_cons,
      List.map_nil, List.cons_append, List.nil_append, List.mem_cons, List.mem_singleton,
      List.not_mem_nil, or_false] at hxa hxb
    rcases hxa with rfl | rfl | rfl | rfl <;>
      rcases hxb with h | h | h | h <;>
      · simp only [List.append_assoc, decomp_id, decomp_desc, List.cons_append] at h
        exact run_block_ne hab _ _ (List.append_cancel_left (List.append_cancel_left h))

/-- The three run-independent external filenames are pairwise distinct. -/
theorem globalSubs_snd_nodup (sub_ses srID : List Char) (N : Nat) :
    ((globalSubs sub_ses srID N).map Prod.snd).Nodup := by
  simp only [globalSubs, List.map_cons, List.map_nil, List.nodup_cons, List.mem_cons,
    List.mem_singleton, List.not_mem_nil, not_or, not_false_iff, and_true, List.nodup_nil]
  refine ⟨⟨?_, ?_⟩, ?_⟩
  · intro h
    simp only [List.append_assoc] at h
    exact rec_sdi_ne_sr _ _ (List.append_cancel_left h)
  · intro h
    simp only [List.append_assoc] at h
    exact rec_sdi_ne_sr _ _ (List.append_cancel_left h)
  · exact append_ne_of_rev_ne 7 (by decide) (by decide) (by decide) _ _

/-- No per-stack external filename coincides with a run-independent one. -/
theorem subBlock_global_snd_disjoint (sub_ses srID : List Char) (N : Nat) (umm : Bool)
    (s : Nat) : ∀ x ∈ (subBlock sub_ses srID N umm s).map Prod.snd,
      x ∉ (globalSubs sub_ses srID N).map Prod.snd := by
  intro x hx hg
  simp only [globalSubs, List.map_cons, List.map_nil, List.mem_cons, List.mem_singleton,
    List.not_mem_nil, or_false] at hg
  cases umm
  case false =>
    simp only [subBlock, Bool.false_eq_true, if_false, List.map_append, List.map_cons,
      List.map_nil, List.cons_append, List.nil_append, List.mem_cons, List.mem_singleton,
      List.not_mem_nil, or_false] at hx
    rcases hx with rfl | rfl | rfl | rfl | rfl <;>
      rcases hg with h | h | h <;>
      · simp only [List.append_assoc] at h
        first
        | exact run_ne_rec_sdi _ _ (List.append_cancel_left h)
        | exact run_ne_rec_sr _ _ (List.append_cancel_left h)
  case true =>
    simp only [subBlock, if_true, List.map_append, List.map_cons,
      List.map_nil, List.cons_append, List.nil_append, List.mem_cons, List.mem_singleton,
      List.not_mem_nil, or_false] at hx
    rcases hx with rfl | rfl | rfl | rfl <;>
      rcases hg with h | h | h <;>
      · simp only [List.append_assoc] at h
        first
        | exact run_ne_rec_sdi _ _ (List.append_cancel_left h)
        | exact run_ne_rec_sr _ _ (List.append_cancel_left h)

/-- The second components of the full substitution list are pairwise
distinct when `p_stacks_order` is. -/
theorem substitutions_snd_nodup (sub_ses srID : List Char) (umm : Bool) (so : List Nat)
    (hnd : so.Nodup) : ((substitutions sub_ses srID umm so).map Prod.snd).Nodup := by
  rw [substitutions, List.map_append]
  apply List.Nodup.append
  · rw [List.map_flatMap, List.nodup_flatMap]
    constructor
    · intro s _
      exact subBlock_snd_nodup sub_ses srID so.length umm s
    · exact List.Pairwise.imp
        (fun hab => subBlock_snd_disjoint sub_ses srID so.length umm hab) hnd
  · exact globalSubs_snd_nodup sub_ses srID so.length
  · intro x hx hg
    rw [List.map_flatMap, List.mem_flatMap] at hx
    obtain ⟨s, -, hxs⟩ := hx
    exact subBlock_global_snd_disjoint sub_ses srID so.length umm s x hxs hg

/-- C8: for a `p_stacks_order` with pairwise-distinct run indices, the
filename substitution mapping assembled in `create_workflow` is a bijection
over the produced artifacts: the internal filenames (first components) are
pairwise distinct and the external derivatives filenames (second
components) are pairwise distinct, for every subject/session prefix,
reconstruction id and mask mode. -/
theorem C8_substitutions_bijection (sub_ses srID : List Char) (umm : Bool)
    (so : List Nat) (hnd : so.Nodup) :
    ((substitutions sub_ses srID umm so).map Prod.fst).Nodup ∧
    ((substitutions sub_ses srID umm so).map Prod.snd).Nodup :=
  ⟨substitutions_fst_nodup sub_ses srID umm so hnd,
   substitutions_snd_nodup sub_ses srID umm so hnd⟩

/-- Witness for C8 at a concrete three-stack pipeline run. -/
theorem C8_substitutions_bijection_witness :
    ((substitutions ("sub-01_ses-01".toList) ("01".toList) false [2, 0, 1]).map
      Prod.fst).Nodup ∧
    ((substitutions ("sub-01_ses-01".toList) ("01".toList) false [2, 0, 1]).map
      Prod.snd).Nodup :=
  C8_substitutions_bijection ("sub-01_ses-01".toList) ("01".toList) false [2, 0, 1]
    (by decide)

end Mial
